import Mathlib

/-!
# Verification of the acronym_buster candidate-resolution pipeline

Shallow embedding of the core of the `acronym_buster` repository:
the acronym detector's normalizer, the initials-alignment scorer, the
in-document definition matcher, the glossary builders, the per-acronym
candidate merge/dedup/choose logic of the `/extract` endpoint, and the
external knowledge aggregator `web_candidates`.

Python strings are modelled as Lean `String`/`List Char`; Python floats as
`ℚ` (all constants in the source are decimal literals, so rational
arithmetic is exact); network calls are modelled as explicit deterministic
parameters; the response cache and the learned store are explicit values
threaded through the functions.
-/

namespace AcronymBuster

set_option maxRecDepth 100000

/-! ## Character-level helpers (Python `str` methods, ASCII range) -/

/-- The character class `[A-Za-z0-9]` used by `re.findall`/`re.split` in
`extraction.py` (`_initials`) and `web_lookup.py` (`_initials`,
`re_split_nonword`). -/
def isPyAlnum (c : Char) : Bool :=
  ('A' ≤ c && c ≤ 'Z') || ('a' ≤ c && c ≤ 'z') || ('0' ≤ c && c ≤ '9')

/-- Python whitespace, as recognised by `str.split()` / `str.strip()`. -/
def isPySpace (c : Char) : Bool :=
  c = ' ' || c = '\t' || c = '\n' || c = '\r' || c = '\x0b' || c = '\x0c'

/-- `n.isValidChar` holds for every scalar value below the surrogate range. -/
theorem isValidChar_of_lt {n : Nat} (h : n < 55296) : n.isValidChar := Or.inl h

theorem toNat_ofNat_valid {n : Nat} (h : n.isValidChar) :
    (Char.ofNat n).toNat = n := by
  simp only [Char.ofNat, h, dite_true, Char.ofNatAux, Char.toNat, UInt32.toNat]
  simp

theorem char_eq_of_toNat {a b : Char} (h : a.toNat = b.toNat) : a = b :=
  Char.ext (UInt32.ext h)

/-- `Char.toUpper` (the per-character model of Python `str.upper` on ASCII
input) described on scalar values. -/
theorem toUpper_toNat (c : Char) :
    c.toUpper.toNat = if 97 ≤ c.toNat ∧ c.toNat ≤ 122 then c.toNat - 32 else c.toNat := by
  simp only [Char.toUpper, ge_iff_le]
  split
  · next h => exact toNat_ofNat_valid (isValidChar_of_lt (by omega))
  · rfl

theorem toUpper_idem (c : Char) : c.toUpper.toUpper = c.toUpper := by
  apply char_eq_of_toNat
  rw [toUpper_toNat, toUpper_toNat]
  split_ifs <;> omega

theorem toUpper_ne_s (c : Char) : c.toUpper ≠ 's' := by
  intro h
  have h' : c.toUpper.toNat = 115 := by rw [h]; decide
  rw [toUpper_toNat] at h'
  split at h' <;> omega

theorem toUpper_eq_S (c : Char) (h : c.toUpper = 'S') : c = 's' ∨ c = 'S' := by
  have hs : ('s').toNat = 115 := by decide
  have hS : ('S').toNat = 83 := by decide
  have h' : c.toUpper.toNat = 83 := by rw [h]; decide
  rw [toUpper_toNat] at h'
  split at h'
  · left; exact char_eq_of_toNat (by omega)
  · right; exact char_eq_of_toNat (by omega)

theorem toUpper_eq_dot (c : Char) (h : c.toUpper = '.') : c = '.' := by
  have hd : ('.').toNat = 46 := by decide
  have h' : c.toUpper.toNat = 46 := by rw [h]; decide
  rw [toUpper_toNat] at h'
  split at h' <;> exact char_eq_of_toNat (by omega)

/-! ## Run-based tokenisation

`re.findall(r"[A-Za-z0-9]+", s)` and Python `str.split()` both decompose a
string into the maximal runs of characters satisfying a class predicate,
discarding separators. -/

/-- Maximal runs of characters satisfying `p` (separators dropped).
`cur` is the current run accumulated in reverse. -/
def runsAux (p : Char → Bool) : List Char → List Char → List (List Char)
  | [], cur => if cur.isEmpty then [] else [cur.reverse]
  | c :: cs, cur =>
    if p c then runsAux p cs (c :: cur)
    else if cur.isEmpty then runsAux p cs [] else cur.reverse :: runsAux p cs []

def runs (p : Char → Bool) (l : List Char) : List (List Char) := runsAux p l []

/-- `_initials` of `extraction.py` (and, identically, of `web_lookup.py`):
first character of each alphanumeric token, uppercased. -/
def initialsL (l : List Char) : List Char :=
  (runs isPyAlnum l).filterMap (fun t => t.head?.map Char.toUpper)

def initialsStr (s : String) : String := ⟨initialsL s.data⟩

/-- `len(phrase.split())`: number of whitespace-separated words. -/
def wordCount (s : String) : Nat := (runs (fun c => !isPySpace c) s.data).length

/-! ## Levenshtein distance (`rapidfuzz.distance.Levenshtein`) -/

/-- Uniform-weight Levenshtein edit distance. -/
def lev : List Char → List Char → Nat
  | [], ys => ys.length
  | x :: xs, [] => (x :: xs).length
  | x :: xs, y :: ys =>
    min (lev xs ys + (if x = y then 0 else 1))
      (min (lev xs (y :: ys) + 1) (lev (x :: xs) ys + 1))
termination_by a b => a.length + b.length
decreasing_by
  all_goals simp [List.length_cons]
  all_goals omega

theorem lev_self (l : List Char) : lev l l = 0 := by
  induction l with
  | nil => simp [lev]
  | cons x xs ih => rw [lev]; simp [ih]

/-- `Levenshtein.normalized_similarity`: `1 - dist / max(len_a, len_b)`
(and `1` when both strings are empty). -/
def levNormSim (a b : List Char) : ℚ :=
  let m := max a.length b.length
  if m = 0 then 1 else 1 - (lev a b : ℚ) / (m : ℚ)

theorem levNormSim_le_one (a b : List Char) : levNormSim a b ≤ 1 := by
  unfold levNormSim
  dsimp only
  split
  · exact le_refl 1
  · next h =>
    have hm : (0 : ℚ) < ((max a.length b.length : Nat) : ℚ) := by
      exact_mod_cast Nat.pos_of_ne_zero h
    have : (0 : ℚ) ≤ (lev a b : ℚ) / ((max a.length b.length : Nat) : ℚ) :=
      div_nonneg (by positivity) (le_of_lt hm)
    linarith

theorem levNormSim_self (a : List Char) : levNormSim a a = 1 := by
  unfold levNormSim
  dsimp only
  split
  · rfl
  · rw [lev_self]; simp

/-! ## The initials-alignment scorer (`initials_alignment_score`)

Identical in `src/app/static/app/extraction.py` and
`src/acronym-extractor-app/app/extraction.py`. -/

/-- Count of matching leading characters of two strings
(the `for a, b in zip(acr, ini)` loop). -/
def leadMatchCount : List Char → List Char → Nat
  | x :: xs, y :: ys => if x = y then leadMatchCount xs ys + 1 else 0
  | _, _ => 0

/-- `initials_alignment_score(acr, phrase)`:
`0.6 * prefix_fraction + 0.4 * levenshtein_similarity`, minus a verbosity
penalty, clamped to `[0, 1]`; `0` when the phrase has no initials. -/
def initials_alignment_score (acr phrase : String) : ℚ :=
  let ini := initialsL phrase.data
  if ini.isEmpty then 0
  else
    let lead := leadMatchCount acr.data ini
    let levS := levNormSim acr.data ini
    let score := (6 / 10 : ℚ) * ((lead : ℚ) / ((max 1 acr.length : Nat) : ℚ)) + (4 / 10) * levS
    let penalty := min (2 / 10 : ℚ) (max 0 (((wordCount phrase : ℚ) - (acr.length : ℚ)) * (2 / 100)))
    max 0 (min 1 (score - penalty))

theorem leadMatchCount_self (l : List Char) : leadMatchCount l l = l.length := by
  induction l with
  | nil => rfl
  | cons x xs ih => rw [leadMatchCount]; simp [ih]

theorem leadMatchCount_zero_of_ne {x y : Char} (xs ys : List Char) (h : x ≠ y) :
    leadMatchCount (x :: xs) (y :: ys) = 0 := by
  rw [leadMatchCount]; simp [h]

/-- Claim C8 helper: the clamp keeps every score inside `[0, 1]`. -/
theorem score_bounds (acr phrase : String) :
    0 ≤ initials_alignment_score acr phrase ∧ initials_alignment_score acr phrase ≤ 1 := by
  unfold initials_alignment_score
  dsimp only
  split_ifs
  · exact ⟨le_refl 0, by norm_num⟩
  · constructor
    · exact le_max_left 0 _
    · exact max_le (by norm_num) (min_le_left _ _)

/-- A phrase whose initials string is exactly the acronym scores at least
`0.8`: the prefix fraction and the Levenshtein similarity are both maximal
and the verbosity penalty is capped at `0.2`. -/
theorem score_exact (a p : String) (ha : a ≠ "") (h : initialsL p.data = a.data) :
    (8 / 10 : ℚ) ≤ initials_alignment_score a p := by
  have hane : a.data ≠ [] := fun hnil => ha (String.ext (by simp [hnil]))
  have hlen : a.length = a.data.length := rfl
  have hlen1 : (1 : Nat) ≤ a.length := by
    rw [hlen]; exact Nat.pos_of_ne_zero (fun h0 => hane (List.length_eq_zero.mp h0))
  unfold initials_alignment_score
  dsimp only
  rw [h]
  split_ifs with hif
  · exact absurd (List.isEmpty_iff.mp hif) hane
  · rw [leadMatchCount_self, levNormSim_self, Nat.max_eq_right hlen1, hlen]
    have hq : ((a.data.length : ℚ)) ≠ 0 := by
      have := hlen ▸ hlen1
      exact_mod_cast Nat.pos_iff_ne_zero.mp this
    rw [div_self hq]
    have hP : min (2 / 10 : ℚ)
        (max 0 (((wordCount p : ℚ) - (a.length : ℚ)) * (2 / 100))) ≤ 2 / 10 :=
      min_le_left _ _
    exact le_max_of_le_right (le_min (by norm_num) (by rw [hlen] at hP; linarith))

/-- A phrase whose initials share no leading character with the acronym
scores at most `0.4`: the prefix term vanishes and the Levenshtein term is
at most `0.4`. -/
theorem score_noLead (a p : String) (ha : a.data ≠ [])
    (h2 : (initialsL p.data).head? ≠ a.data.head?) :
    initials_alignment_score a p ≤ 4 / 10 := by
  unfold initials_alignment_score
  dsimp only
  split_ifs with hif
  · norm_num
  · have hsim := levNormSim_le_one a.data (initialsL p.data)
    have h0P : (0 : ℚ) ≤ min (2 / 10 : ℚ)
        (max 0 (((wordCount p : ℚ) - (a.length : ℚ)) * (2 / 100))) :=
      le_min (by norm_num) (le_max_left 0 _)
    obtain ⟨c, t', hC⟩ := List.exists_cons_of_ne_nil ha
    obtain ⟨d, t, hD⟩ := List.exists_cons_of_ne_nil
      (fun h0 => hif (List.isEmpty_iff.mpr h0))
    have hdc : d ≠ c := by
      intro hEq
      apply h2
      rw [hC, hD, hEq]
      rfl
    rw [hC, hD] at hsim ⊢
    rw [leadMatchCount_zero_of_ne t' t hdc.symm]
    apply max_le (by norm_num)
    refine le_trans (min_le_right 1 _) ?_
    have hdiv : (((0 : Nat) : ℚ)) / (((max 1 a.length : Nat)) : ℚ) = 0 := by simp
    rw [hdiv]
    linarith

/-- Claim C8 — scorer bounds and ordering: every score lies in `[0, 1]`,
and for a non-empty acronym `a`, a phrase whose initials string is exactly
`a` scores at least as high as an unrelated phrase (one whose initials
share no leading character with `a` and whose initials are no closer to
`a` in normalized edit similarity). -/
theorem claim_C8_scorer_bounds_and_order :
    (∀ acr phrase : String,
        0 ≤ initials_alignment_score acr phrase ∧
        initials_alignment_score acr phrase ≤ 1) ∧
    (∀ a p₁ p₂ : String, a ≠ "" →
        initialsL p₁.data = a.data →
        (initialsL p₂.data).head? ≠ a.data.head? →
        levNormSim a.data (initialsL p₂.data) ≤ levNormSim a.data (initialsL p₁.data) →
        initials_alignment_score a p₂ ≤ initials_alignment_score a p₁) := by
  constructor
  · exact score_bounds
  · intro a p₁ p₂ ha h1 h2 _hsim
    have hane : a.data ≠ [] := fun hnil => ha (String.ext (by simp [hnil]))
    exact le_trans (score_noLead a p₂ hane h2)
      (le_trans (by norm_num) (score_exact a p₁ ha h1))

/-- Witness for C8 at `a = "AB"`, `p₁ = "Alpha Beta"`, `p₂ = "Zulu"`. -/
theorem claim_C8_scorer_bounds_and_order_witness :
    initials_alignment_score "AB" "Zulu" ≤ initials_alignment_score "AB" "Alpha Beta" := by
  have h1 : initialsL ("Alpha Beta" : String).data = ("AB" : String).data := by decide
  apply claim_C8_scorer_bounds_and_order.2 "AB" "Alpha Beta" "Zulu" (by decide) h1 (by decide)
  rw [h1, levNormSim_self]
  exact levNormSim_le_one _ _

/-! ## The acronym normalizer (`normalize_acronym`, `extraction.py`)

`normalize_acronym(raw)`:
1. `APOSTROPHE_RE.sub('', raw)` with `APOSTROPHE_RE = re.compile(r"[’']s")`;
2. `raw.rstrip('sS')`;
3. `raw.replace('.', '')` when a dot is present;
4. `raw.upper()` (per-character ASCII upper on acronym-shaped input). -/

/-- Leftmost non-overlapping deletion of every `’s` / `'s` occurrence,
as performed by `re.sub` scanning left to right. -/
def subApos : List Char → List Char
  | [] => []
  | [c] => [c]
  | a :: b :: rest =>
    if (a = '’' ∨ a = '\'') ∧ b = 's' then subApos rest
    else a :: subApos (b :: rest)

/-- `str.rstrip('sS')`. -/
def rstripS (l : List Char) : List Char :=
  (l.reverse.dropWhile (fun c => c = 's' || c = 'S')).reverse

def normalize_acronym (raw : String) : String :=
  let l1 := subApos raw.data
  let l2 := rstripS l1
  let l3 := if l2.contains '.' then l2.filter (fun c => c ≠ '.') else l2
  ⟨l3.map Char.toUpper⟩

theorem mem_subApos (c : Char) : ∀ (l : List Char), c ∈ subApos l → c ∈ l
  | [], h => h
  | [c'], h => by rw [subApos] at h; exact h
  | a :: b :: rest, h => by
    rw [subApos] at h
    split at h
    · exact List.mem_cons_of_mem _ (List.mem_cons_of_mem _ (mem_subApos c rest h))
    · rcases List.mem_cons.mp h with h1 | h2
      · exact h1 ▸ List.mem_cons_self _ _
      · exact List.mem_cons_of_mem _ (mem_subApos c (b :: rest) h2)

theorem subApos_eq_self : ∀ (l : List Char), 's' ∉ l → subApos l = l
  | [], _ => rfl
  | [_], _ => by rw [subApos]
  | a :: b :: rest, h => by
    have hb : b ≠ 's' := fun he => h (he ▸ List.mem_cons_of_mem _ (List.mem_cons_self _ _))
    rw [subApos, if_neg (fun hc => hb hc.2),
      subApos_eq_self (b :: rest) (fun hm => h (List.mem_cons_of_mem _ hm))]

theorem dropWhile_head_false (p : Char → Bool) :
    ∀ (l : List Char) (x : Char), (l.dropWhile p).head? = some x → p x = false := by
  intro l
  induction l with
  | nil => intro x h; simp [List.dropWhile] at h
  | cons a t ih =>
    intro x h
    rw [List.dropWhile_cons] at h
    by_cases hp : p a = true
    · rw [if_pos hp] at h; exact ih x h
    · rw [if_neg hp] at h
      simp at h
      rw [← h]
      exact Bool.not_eq_true _ |>.mp hp

theorem dropWhile_eq_self (p : Char → Bool) (l : List Char)
    (h : ∀ x, l.head? = some x → p x = false) : l.dropWhile p = l := by
  cases l with
  | nil => rfl
  | cons a t =>
    rw [List.dropWhile_cons, if_neg]
    rw [h a rfl]
    simp

theorem mem_rstripS {c : Char} {l : List Char} (h : c ∈ rstripS l) : c ∈ l := by
  unfold rstripS at h
  rw [List.mem_reverse] at h
  exact List.mem_reverse.mp ((List.dropWhile_sublist _).subset h)

theorem rstripS_getLast {l : List Char} {c : Char} (h : (rstripS l).getLast? = some c) :
    ¬(c = 's' ∨ c = 'S') := by
  unfold rstripS at h
  rw [List.getLast?_reverse] at h
  have hp := dropWhile_head_false _ _ _ h
  intro hc
  rcases hc with h1 | h1 <;> simp [h1] at hp

theorem rstripS_eq_self {l : List Char}
    (h : ∀ c, l.getLast? = some c → ¬(c = 's' ∨ c = 'S')) : rstripS l = l := by
  unfold rstripS
  rw [dropWhile_eq_self, List.reverse_reverse]
  intro x hx
  rw [List.head?_reverse] at hx
  have hns := h x hx
  have h1 : x ≠ 's' := fun he => hns (Or.inl he)
  have h2 : x ≠ 'S' := fun he => hns (Or.inr he)
  simp [h1, h2]

theorem s_not_mem_mapUpper (l : List Char) : 's' ∉ l.map Char.toUpper := by
  intro h
  obtain ⟨c, _, hc⟩ := List.mem_map.mp h
  exact toUpper_ne_s c hc

theorem dot_not_mem_mapUpper {l : List Char} (h : '.' ∉ l) : '.' ∉ l.map Char.toUpper := by
  intro hm
  obtain ⟨c, hcl, hc⟩ := List.mem_map.mp hm
  exact h (toUpper_eq_dot c hc ▸ hcl)

theorem mapUpper_idem (l : List Char) :
    (l.map Char.toUpper).map Char.toUpper = l.map Char.toUpper := by
  rw [List.map_map]
  exact List.map_congr_left (fun c _ => toUpper_idem c)

theorem contains_dot_false {l : List Char} (h : '.' ∉ l) : l.contains '.' = false := by
  rw [Bool.eq_false_iff]
  intro hc
  exact h (List.elem_iff.mp hc)

/-- Claim C4 — counterexample to idempotence as stated: for the dotted
acronym-shaped token `"U.S."` (same shape as the spec's example `"A.I."`),
`normalize_acronym "U.S." = "US"` but `normalize_acronym "US" = "U"`:
dot removal runs after the trailing-`s` strip, so a second normalization
strips the exposed `S`. -/
theorem claim_C4_normalize_idem_counterexample :
    normalize_acronym (normalize_acronym "U.S.") ≠ normalize_acronym "U.S." := by
  decide

/-- Claim C4 (amended) — `normalize_acronym` is idempotent on every input
without an internal dot separator (in particular on every token matched by
the detector regex `ACR_RE`, including plural/possessive forms); dotted
forms whose dot removal exposes a trailing `S`, such as `"U.S."`, are the
only exception. -/
theorem claim_C4_normalize_idem_amended (s : String) (hdot : '.' ∉ s.data) :
    normalize_acronym (normalize_acronym s) = normalize_acronym s := by
  have hydot : '.' ∉ rstripS (subApos s.data) :=
    fun hm => hdot (mem_subApos _ _ (mem_rstripS hm))
  have hcy : ¬((rstripS (subApos s.data)).contains '.' = true) := by
    rw [contains_dot_false hydot]
    exact Bool.false_ne_true
  have hinner : normalize_acronym s = ⟨(rstripS (subApos s.data)).map Char.toUpper⟩ := by
    unfold normalize_acronym
    dsimp only
    rw [if_neg hcy]
  rw [hinner]
  unfold normalize_acronym
  dsimp only
  have hsub : subApos ((rstripS (subApos s.data)).map Char.toUpper) =
      (rstripS (subApos s.data)).map Char.toUpper :=
    subApos_eq_self _ (s_not_mem_mapUpper _)
  rw [hsub]
  have hstr : rstripS ((rstripS (subApos s.data)).map Char.toUpper) =
      (rstripS (subApos s.data)).map Char.toUpper := by
    apply rstripS_eq_self
    intro c hc
    rw [List.getLast?_map] at hc
    cases hy' : (rstripS (subApos s.data)).getLast? with
    | none => rw [hy'] at hc; exact absurd hc (by simp)
    | some d =>
      rw [hy'] at hc
      simp at hc
      have hd := rstripS_getLast hy'
      intro hor
      rcases hor with h1 | h1
      · exact toUpper_ne_s d (h1 ▸ hc)
      · exact hd (toUpper_eq_S d (h1 ▸ hc))
  rw [hstr]
  have hzdot : ¬(((rstripS (subApos s.data)).map Char.toUpper).contains '.' = true) := by
    rw [contains_dot_false (dot_not_mem_mapUpper hydot)]
    exact Bool.false_ne_true
  rw [if_neg hzdot, mapUpper_idem]

/-- Witness for the amended C4 at the plural token `"SARs"`. -/
theorem claim_C4_normalize_idem_amended_witness :
    normalize_acronym (normalize_acronym "SARs") = normalize_acronym "SARs" :=
  claim_C4_normalize_idem_amended "SARs" (by decide)

/-! ## Candidate merge, dedup and choice (`/extract` loop body, `main.py`)

The per-acronym body of the `/extract` handler, decomposed by its numbered
source comments: (1) glossary/table candidate, (2) in-text candidate,
(3) learned candidate, (4) web candidates only when steps 1–3 produced
nothing, (5) dedup by `definition.strip().lower()`, (6) placeholder
fallback, (7) chosen index by `document > learned/user > first`.
The glossary lookup, the in-text matcher result, the learned-store row and
the web lookup are inputs here; the web lookup is a function argument that
the body may or may not invoke, and the second component of the result
records whether it was invoked. -/

structure Candidate where
  definition : String
  confidence : ℚ
  source : String
deriving DecidableEq

structure AcronymResult where
  term : String
  definition : Option String
  confidence : ℚ
  source : String
  note : Option String
  first_seen_excerpt : Option String
  candidates : List Candidate
  chosen_index : Nat
deriving DecidableEq

/-- The triple returned by `find_definition_in_text`. -/
structure DocHit where
  phrase : String
  conf : ℚ
  excerpt : String
deriving DecidableEq

/-- The row returned by `get_learned`. -/
structure LearnedRec where
  definition : String
  source : String
  confidence : ℚ
deriving DecidableEq

/-- Strip characters satisfying `p` from both ends (Python `str.strip`). -/
def stripPy (p : Char → Bool) (l : List Char) : List Char :=
  ((l.dropWhile p).reverse.dropWhile p).reverse

def stripStr (s : String) : String := ⟨stripPy isPySpace s.data⟩

def lowerStr (s : String) : String := ⟨s.data.map Char.toLower⟩

def takeStr (n : Nat) (s : String) : String := ⟨s.data.take n⟩

def isPrefOf : List Char → List Char → Bool
  | [], _ => true
  | _ :: _, [] => false
  | x :: xs, y :: ys => x == y && isPrefOf xs ys

def startsWithStr (p s : String) : Bool := isPrefOf p.data s.data

/-- Python `round(x, 3)` (round half to even). -/
def pyRound3 (q : ℚ) : ℚ :=
  let x := q * 1000
  let f : ℤ := ⌊x⌋
  let r := x - (f : ℚ)
  let n : ℤ :=
    if r < 1 / 2 then f
    else if 1 / 2 < r then f + 1
    else if f % 2 = 0 then f else f + 1
  (n : ℚ) / 1000

/-- Step 5: de-duplicate by `c.definition.strip().lower()`, first seen
kept, order preserved (`seen` is the already-seen key set). -/
def dedupAux : List Candidate → List String → List Candidate
  | [], _ => []
  | c :: rest, seen =>
    let key := lowerStr (stripStr c.definition)
    if key ∈ seen then dedupAux rest seen
    else c :: dedupAux rest (key :: seen)

/-- Step 7: first `document` index, else first `learned`/`user` index,
else 0 (the Python `for ... break / else` pair). -/
def chooseIdx (cands : List Candidate) : Nat :=
  match cands.findIdx? (fun c => c.source == "document") with
  | some i => i
  | none =>
    match cands.findIdx? (fun c => c.source == "learned" || c.source == "user") with
    | some i => i
    | none => 0

/-- Mapping of `web_candidates` triples `(defn, dom, sc)` to candidates
with source `web:<dom>` and confidence `round(sc, 3)`. -/
def webToCandidates (wc : List (String × String × ℚ)) : List Candidate :=
  wc.map (fun e => ⟨e.1, pyRound3 e.2.2, "web:" ++ e.2.1⟩)

/-- Steps 1–3: glossary candidate (confidence 0.86, source `document`),
in-text candidate (source `document`, confidence `round(conf, 3)`),
learned candidate, in this order. -/
def tierCands (g : Option String) (t : Option DocHit) (lr : Option LearnedRec) :
    List Candidate :=
  (match g with
   | some d => [⟨d, 86 / 100, "document"⟩]
   | none => []) ++
  (match t with
   | some h => [⟨h.phrase, pyRound3 h.conf, "document"⟩]
   | none => []) ++
  (match lr with
   | some l => [⟨l.definition, l.confidence, l.source⟩]
   | none => [])

/-- Step 4: web candidates appended only when steps 1–3 produced nothing. -/
def rawCands (g : Option String) (t : Option DocHit) (lr : Option LearnedRec)
    (f : Unit → List (String × String × ℚ)) : List Candidate :=
  if (tierCands g t lr).isEmpty then tierCands g t lr ++ webToCandidates (f ())
  else tierCands g t lr

/-- Steps 5–6: dedup, then the `(no definition found)` placeholder when
the list is empty. -/
def finalCands (g : Option String) (t : Option DocHit) (lr : Option LearnedRec)
    (f : Unit → List (String × String × ℚ)) : List Candidate :=
  let uniq := dedupAux (rawCands g t lr f) []
  if uniq.isEmpty then [⟨"(no definition found)", 0, "none"⟩] else uniq

/-- The full loop body for one acronym: the `AcronymResult` plus a flag
recording whether the web lookup was invoked (step 4's guard). -/
def resolveOne (acr : String) (g : Option String) (t : Option DocHit)
    (lr : Option LearnedRec) (f : Unit → List (String × String × ℚ)) :
    AcronymResult × Bool :=
  let cands := finalCands g t lr f
  let idx := chooseIdx cands
  let chosen := cands.getD idx ⟨"", 0, ""⟩
  (⟨acr, some chosen.definition, chosen.confidence, chosen.source,
    (if startsWithStr "web:" chosen.source then some "possible match (web)" else none),
    (t.map (fun h => h.excerpt)).map (takeStr 240), cands, idx⟩,
   (tierCands g t lr).isEmpty)

theorem chooseIdx_lt (cands : List Candidate) (h : cands ≠ []) :
    chooseIdx cands < cands.length := by
  unfold chooseIdx
  cases h1 : cands.findIdx? (fun c => c.source == "document") with
  | some i => exact (List.findIdx?_eq_some_iff_getElem.mp h1).1
  | none =>
    cases h2 : cands.findIdx? (fun c => c.source == "learned" || c.source == "user") with
    | some i => exact (List.findIdx?_eq_some_iff_getElem.mp h2).1
    | none => exact List.length_pos.mpr h

theorem finalCands_ne_nil (g : Option String) (t : Option DocHit)
    (lr : Option LearnedRec) (f : Unit → List (String × String × ℚ)) :
    finalCands g t lr f ≠ [] := by
  unfold finalCands
  dsimp only
  split
  · simp
  · next h => exact fun he => h (by rw [he]; rfl)

/-- Claim C1 — non-empty guarantee and placeholder synthesis: every
resolution yields a non-empty candidate list with a valid chosen index,
and when the glossary, the in-document matcher, the learned store and the
web tier all contribute zero candidates, the list is exactly the single
placeholder `(no definition found)` with confidence `0` and source
`"none"`, chosen at index `0`. -/
theorem claim_C1_nonempty_and_placeholder (acr : String) (g : Option String)
    (t : Option DocHit) (lr : Option LearnedRec)
    (f : Unit → List (String × String × ℚ)) :
    ((resolveOne acr g t lr f).1.candidates ≠ [] ∧
      (resolveOne acr g t lr f).1.chosen_index <
        (resolveOne acr g t lr f).1.candidates.length) ∧
    (g = none → t = none → lr = none → f () = [] →
      (resolveOne acr g t lr f).1.candidates =
          [⟨"(no definition found)", 0, "none"⟩] ∧
        (resolveOne acr g t lr f).1.chosen_index = 0) := by
  constructor
  · exact ⟨finalCands_ne_nil g t lr f,
      chooseIdx_lt _ (finalCands_ne_nil g t lr f)⟩
  · intro hg ht hl hf
    subst hg; subst ht; subst hl
    have hfc : finalCands none none none f = [⟨"(no definition found)", 0, "none"⟩] := by
      unfold finalCands rawCands tierCands webToCandidates
      rw [hf]
      rfl
    constructor
    · show finalCands none none none f = _
      exact hfc
    · show chooseIdx (finalCands none none none f) = 0
      rw [hfc]
      rfl

/-- Witness for C1 with no evidence from any tier. -/
theorem claim_C1_nonempty_and_placeholder_witness :
    (resolveOne "XYZ" none none none (fun _ => [])).1.candidates =
        [⟨"(no definition found)", 0, "none"⟩] ∧
      (resolveOne "XYZ" none none none (fun _ => [])).1.chosen_index = 0 :=
  (claim_C1_nonempty_and_placeholder "XYZ" none none none (fun _ => [])).2
    rfl rfl rfl rfl

/-- Claim C2 — choice priority on a deduplicated candidate list: the chosen
index is the first `document` index when one exists (whatever the
confidences are); otherwise the first `learned`/`user` index when one
exists; otherwise `0`. -/
theorem claim_C2_choice_priority (l : List Candidate) :
    (∀ (i : Nat) (h : i < l.length),
        l[i].source = "document" →
        (∀ j (hj : j < i), (l.get ⟨j, Nat.lt_trans hj h⟩).source ≠ "document") →
        chooseIdx l = i) ∧
    ((∀ c ∈ l, c.source ≠ "document") →
      ∀ (i : Nat) (h : i < l.length),
        (l[i].source = "learned" ∨ l[i].source = "user") →
        (∀ j (hj : j < i),
          ¬((l.get ⟨j, Nat.lt_trans hj h⟩).source = "learned" ∨
            (l.get ⟨j, Nat.lt_trans hj h⟩).source = "user")) →
        chooseIdx l = i) ∧
    ((∀ c ∈ l, c.source ≠ "document" ∧ c.source ≠ "learned" ∧ c.source ≠ "user") →
      chooseIdx l = 0) := by
  refine ⟨?_, ?_, ?_⟩
  · intro i h hi hj
    have hf : l.findIdx? (fun c => c.source == "document") = some i := by
      rw [List.findIdx?_eq_some_iff_getElem]
      refine ⟨h, by simp [hi], fun j hji => ?_⟩
      have hg := hj j hji
      simp only [List.get_eq_getElem] at hg
      simp [hg]
    unfold chooseIdx
    rw [hf]
  · intro hnd i h hi hj
    have hf1 : l.findIdx? (fun c => c.source == "document") = none := by
      rw [List.findIdx?_eq_none_iff]
      intro c hc
      simp [hnd c hc]
    have hf2 : l.findIdx? (fun c => c.source == "learned" || c.source == "user") = some i := by
      rw [List.findIdx?_eq_some_iff_getElem]
      refine ⟨h, ?_, ?_⟩
      · rcases hi with hi | hi <;> simp [hi]
      · intro j hji
        have hg := hj j hji
        simp only [List.get_eq_getElem] at hg
        simp only [Bool.or_eq_true, beq_iff_eq]
        tauto
    unfold chooseIdx
    rw [hf1, hf2]
  · intro hall
    have hf1 : l.findIdx? (fun c => c.source == "document") = none := by
      rw [List.findIdx?_eq_none_iff]
      intro c hc
      simp [(hall c hc).1]
    have hf2 : l.findIdx? (fun c => c.source == "learned" || c.source == "user") = none := by
      rw [List.findIdx?_eq_none_iff]
      intro c hc
      simp [(hall c hc).2.1, (hall c hc).2.2]
    unfold chooseIdx
    rw [hf1, hf2]

/-- Witness for C2: a `document` candidate at index 1 behind a
higher-confidence web candidate is still chosen. -/
theorem claim_C2_choice_priority_witness :
    chooseIdx [⟨"web def", 9 / 10, "web:en.wikipedia.org"⟩,
      ⟨"doc def", 1 / 2, "document"⟩] = 1 := by
  refine (claim_C2_choice_priority _).1 1 (by simp) ?_ ?_
  · rfl
  · intro j hj
    interval_cases j
    · exact (by decide : ¬("web:en.wikipedia.org" = "document"))

/-- Claim C3 — the web tier is consulted only when steps 1–3 produced
nothing: if the glossary, the in-document matcher or the learned store
contributed a candidate, the web lookup is not invoked and the result is
independent of the web lookup function (so no candidate of the
web tier appears in the list). -/
theorem claim_C3_web_only_when_no_local (acr : String) (g : Option String)
    (t : Option DocHit) (lr : Option LearnedRec)
    (f f' : Unit → List (String × String × ℚ))
    (h : g.isSome ∨ t.isSome ∨ lr.isSome) :
    (resolveOne acr g t lr f).2 = false ∧
    resolveOne acr g t lr f = resolveOne acr g t lr f' := by
  have hne : (tierCands g t lr).isEmpty = false := by
    rcases h with h | h | h
    · cases g with
      | none => cases h
      | some d => rfl
    · cases t with
      | none => cases h
      | some d => cases g <;> rfl
    · cases lr with
      | none => cases h
      | some d => cases g <;> cases t <;> rfl
  have hraw : ∀ f₀ : Unit → List (String × String × ℚ),
      rawCands g t lr f₀ = tierCands g t lr := by
    intro f₀
    unfold rawCands
    rw [hne]
    simp
  constructor
  · show (tierCands g t lr).isEmpty = false
    exact hne
  · unfold resolveOne finalCands
    rw [hraw f, hraw f']

/-- Witness for C3: a glossary hit suppresses a non-empty web lookup. -/
theorem claim_C3_web_only_when_no_local_witness :
    (resolveOne "SAR" (some "Synthetic Aperture Radar") none none
        (fun _ => [("Search and Rescue", "en.wikipedia.org", 1 / 2)])).2 = false ∧
    resolveOne "SAR" (some "Synthetic Aperture Radar") none none
        (fun _ => [("Search and Rescue", "en.wikipedia.org", 1 / 2)]) =
      resolveOne "SAR" (some "Synthetic Aperture Radar") none none (fun _ => []) :=
  claim_C3_web_only_when_no_local "SAR" (some "Synthetic Aperture Radar") none none
    _ _ (Or.inl rfl)

/-- Claim C10 — result-record consistency: the chosen index is a valid
index into the candidate list, the record's top-level definition,
confidence and source equal those of the chosen candidate, and the note is
present exactly when the chosen candidate's source starts with `web:`. -/
theorem claim_C10_result_record_consistency (acr : String) (g : Option String)
    (t : Option DocHit) (lr : Option LearnedRec)
    (f : Unit → List (String × String × ℚ)) :
    (resolveOne acr g t lr f).1.chosen_index <
      (resolveOne acr g t lr f).1.candidates.length ∧
    (resolveOne acr g t lr f).1.definition =
      some (((resolveOne acr g t lr f).1.candidates.getD
        (resolveOne acr g t lr f).1.chosen_index ⟨"", 0, ""⟩).definition) ∧
    (resolveOne acr g t lr f).1.confidence =
      ((resolveOne acr g t lr f).1.candidates.getD
        (resolveOne acr g t lr f).1.chosen_index ⟨"", 0, ""⟩).confidence ∧
    (resolveOne acr g t lr f).1.source =
      ((resolveOne acr g t lr f).1.candidates.getD
        (resolveOne acr g t lr f).1.chosen_index ⟨"", 0, ""⟩).source ∧
    ((resolveOne acr g t lr f).1.note.isSome ↔
      startsWithStr "web:" (((resolveOne acr g t lr f).1.candidates.getD
        (resolveOne acr g t lr f).1.chosen_index ⟨"", 0, ""⟩).source) = true) := by
  refine ⟨chooseIdx_lt _ (finalCands_ne_nil g t lr f), rfl, rfl, rfl, ?_⟩
  have hnote : (resolveOne acr g t lr f).1.note =
      (if startsWithStr "web:" (((resolveOne acr g t lr f).1.candidates.getD
          (resolveOne acr g t lr f).1.chosen_index ⟨"", 0, ""⟩).source)
        then some "possible match (web)" else none) := rfl
  rw [hnote]
  split
  · next hc => simp only [List.getD_eq_getElem?_getD] at hc; simp [hc]
  · next hc => simp only [List.getD_eq_getElem?_getD] at hc; simp [hc]

/-! ## GlossaryMap construction (`scan_tables_for_glossary`,
`collect_global_longforms`, and their merge in `/extract`)

Python dicts are modelled as insertion-ordered association lists;
`dict.setdefault` appends only when the key is absent.  The two regex
scans of `collect_global_longforms` (`Long form (ACR)` and
`ACR (Long form)`) are collaborator-level text matchers; their match
lists, in `finditer` order, are inputs here, while the guard logic
(`normalize_acronym`, emptiness, first-writer-wins) is concrete.
`ACR_RE.fullmatch` on a table cell is implemented concretely. -/

abbrev Gloss := List (String × String)

def glookup (g : Gloss) (k : String) : Option String :=
  (g.find? (fun pr => pr.1 == k)).map (fun pr => pr.2)

/-- `dict.setdefault(k, v)`: an already-mapped key is never overwritten. -/
def setdefault (g : Gloss) (k v : String) : Gloss :=
  if (glookup g k).isSome then g else g ++ [(k, v)]

def isUpperDigit (c : Char) : Bool :=
  ('A' ≤ c && c ≤ 'Z') || ('0' ≤ c && c ≤ '9')

/-- `ACR_RE.fullmatch`: the whole string must match the acronym shape
(a capital, then 1 to 9 capitals/digits, optionally one hyphen- or
slash-joined segment of 2 to 9 capitals/digits, optionally a trailing
lowercase plural `s`); returns group 1 (everything but the plural `s`). -/
def acrFullmatch (s : String) : Option String :=
  match s.data with
  | [] => none
  | c :: rest =>
    if ('A' ≤ c && c ≤ 'Z') then
      let run := rest.takeWhile isUpperDigit
      let rest2 := rest.dropWhile isUpperDigit
      if run.length < 1 || 9 < run.length then none
      else
        match rest2 with
        | [] => some ⟨c :: run⟩
        | ['s'] => some ⟨c :: run⟩
        | d :: rest3 =>
          if d = '-' || d = '/' then
            let run2 := rest3.takeWhile isUpperDigit
            let rest4 := rest3.dropWhile isUpperDigit
            if run2.length < 2 || 9 < run2.length then none
            else
              match rest4 with
              | [] => some ⟨c :: run ++ d :: run2⟩
              | ['s'] => some ⟨c :: run ++ d :: run2⟩
              | _ => none
          else none
    else none

/-- The stoplist of `src/app/static/app/extraction.py`. -/
def STOPLIST : List String :=
  ["AM", "PM", "MON", "TUE", "WED", "THU", "FRI", "SAT", "SUN",
   "JAN", "FEB", "MAR", "APR", "MAY", "JUN", "JUL", "AUG", "SEP", "OCT", "NOV", "DEC"]

/-- `collect_global_longforms(text)` over the `finditer` match lists of its
two regexes: `m1` lists `(group1, group2) = (long form, ACR)` matches of
`rx1`, `m2` lists `(ACR, long form)` matches of `rx2`; first mapping per
normalized acronym wins, empty acronyms are skipped. -/
def collect_global_longforms (m1 m2 : List (String × String)) : Gloss :=
  let g1 := m1.foldl (fun g pr =>
    let acr := normalize_acronym pr.2
    if acr = "" then g else setdefault g acr (stripStr pr.1)) []
  m2.foldl (fun g pr =>
    let acr := normalize_acronym pr.1
    if acr = "" then g else setdefault g acr (stripStr pr.2)) g1

/-- One table row: its non-empty stripped cell texts, plus the match lists
of the two long-form regexes over `' | '.join(cells)`. -/
structure TableRow where
  cells : List String
  rx1Matches : List (String × String)
  rx2Matches : List (String × String)

/-- One `(left, right)` orientation of the first two cells: if the left
cell fully matches the acronym shape, `setdefault` the normalized term to
the stripped right cell, under the stoplist and length guards. -/
def tryPair (includeCommon : Bool) (g : Gloss) (left right : String) : Gloss :=
  match acrFullmatch (stripStr left) with
  | some g1 =>
    let term := normalize_acronym g1
    if term ≠ "" ∧ (includeCommon ∨ term ∉ STOPLIST) ∧ right ≠ "" ∧ 2 < right.length
    then setdefault g term (stripStr right)
    else g
  | none => g

/-- One row of `scan_tables_for_glossary`: the row's joined-cell long-form
scan first, then both orientations of the first two cells. -/
def scanRow (includeCommon : Bool) (g : Gloss) (row : TableRow) : Gloss :=
  let g1 := (collect_global_longforms row.rx1Matches row.rx2Matches).foldl
    (fun g pr => setdefault g pr.1 pr.2) g
  match row.cells with
  | a :: b :: _ => tryPair includeCommon (tryPair includeCommon g1 a b) b a
  | _ => g1

def scan_tables_for_glossary (includeCommon : Bool) (rows : List TableRow) : Gloss :=
  rows.foldl (scanRow includeCommon) []

/-- The `/extract` glossary: tables first, then
`glossary.setdefault(acr, longf)` for each entry of the global long-form
map, in insertion order. -/
def buildGlossary (includeCommon : Bool) (rows : List TableRow)
    (docM1 docM2 : List (String × String)) : Gloss :=
  (collect_global_longforms docM1 docM2).foldl
    (fun g pr => setdefault g pr.1 pr.2)
    (scan_tables_for_glossary includeCommon rows)

theorem glookup_setdefault_preserve {g : Gloss} {k v : String} (k' v' : String)
    (h : glookup g k = some v) : glookup (setdefault g k' v') k = some v := by
  unfold setdefault
  split
  · exact h
  · unfold glookup at h ⊢
    rw [List.find?_append]
    cases hf : g.find? (fun pr => pr.1 == k) with
    | none => rw [hf] at h; cases h
    | some x => rw [hf] at h; simp [h, Option.or]

theorem foldl_setdefault_preserve (ps : List (String × String)) :
    ∀ {g : Gloss} {k v : String}, glookup g k = some v →
      glookup (ps.foldl (fun g pr => setdefault g pr.1 pr.2) g) k = some v := by
  induction ps with
  | nil => intro g k v h; exact h
  | cons p rest ih =>
    intro g k v h
    exact ih (glookup_setdefault_preserve p.1 p.2 h)

theorem tryPair_preserve (inc : Bool) (a b : String) {g : Gloss} {k v : String}
    (h : glookup g k = some v) : glookup (tryPair inc g a b) k = some v := by
  unfold tryPair
  split
  · dsimp only
    split
    · exact glookup_setdefault_preserve _ _ h
    · exact h
  · exact h

theorem scanRow_preserve (inc : Bool) (row : TableRow) {g : Gloss} {k v : String}
    (h : glookup g k = some v) : glookup (scanRow inc g row) k = some v := by
  unfold scanRow
  dsimp only
  have h1 := foldl_setdefault_preserve
    (collect_global_longforms row.rx1Matches row.rx2Matches) h
  split
  · exact tryPair_preserve inc _ _ (tryPair_preserve inc _ _ h1)
  · exact h1

theorem foldl_scanRow_preserve (inc : Bool) (rows : List TableRow) :
    ∀ {g : Gloss} {k v : String}, glookup g k = some v →
      glookup (rows.foldl (scanRow inc) g) k = some v := by
  induction rows with
  | nil => intro g k v h; exact h
  | cons r rest ih => intro g k v h; exact ih (scanRow_preserve inc r h)

/-- Claim C9 — glossary first-writer-wins: an acronym mapped by the table
scan keeps its value when further tables are scanned, and keeps it in the
final per-document glossary whatever the global parenthetical scan maps it
to (in particular when the global scan maps it to different text). -/
theorem claim_C9_glossary_first_writer_wins :
    (∀ (inc : Bool) (rows more : List TableRow) (k v : String),
      glookup (scan_tables_for_glossary inc rows) k = some v →
      glookup (scan_tables_for_glossary inc (rows ++ more)) k = some v) ∧
    (∀ (inc : Bool) (rows : List TableRow) (docM1 docM2 : List (String × String))
      (k v : String),
      glookup (scan_tables_for_glossary inc rows) k = some v →
      glookup (buildGlossary inc rows docM1 docM2) k = some v) := by
  constructor
  · intro inc rows more k v h
    unfold scan_tables_for_glossary at *
    rw [List.foldl_append]
    exact foldl_scanRow_preserve inc more h
  · intro inc rows docM1 docM2 k v h
    exact foldl_setdefault_preserve _ h

/-- Witness for C9: a table mapping of `SAR` survives a conflicting global
parenthetical mapping. -/
theorem claim_C9_glossary_first_writer_wins_witness :
    glookup (buildGlossary true
        [⟨["SAR", "Synthetic Aperture Radar"], [], []⟩]
        [("Search and Rescue", "SAR")] [])
      "SAR" = some "Synthetic Aperture Radar" :=
  claim_C9_glossary_first_writer_wins.2 true
    [⟨["SAR", "Synthetic Aperture Radar"], [], []⟩]
    [("Search and Rescue", "SAR")] [] "SAR" "Synthetic Aperture Radar"
    (by decide)

/-! ## The in-document definition matcher (`find_definition_in_text`,
`src/app/static/app/extraction.py`)

The loop over sentences, the `acr in s` containment test, the ±1 sentence
window, the alignment gate, the confidence formulas and the proximity
fallback are concrete.  The four structural regexes (`Long form (ACR)`,
`ACR (Long form)`, dash/colon, `short for`/`stands for`) are
collaborator-level text matchers: a pattern is a function from the window
text to the optional captured group 1, paired with its base score, and the
list of the four patterns is a parameter. -/

/-- Python `needle in hay` on strings. -/
def containsSub (needle : List Char) : List Char → Bool
  | [] => isPrefOf needle []
  | c :: t => isPrefOf needle (c :: t) || containsSub needle t

def containsStr (needle hay : String) : Bool := containsSub needle.data hay.data

/-- Python `hay.find(needle)` for a needle known to occur. -/
def findSubIdx (needle : List Char) : List Char → Nat
  | [] => 0
  | c :: t => if isPrefOf needle (c :: t) then 0 else findSubIdx needle t + 1

/-- `' '.join`. -/
def joinSp (ss : List String) : String := String.intercalate " " ss

/-- `_search_window(sentences, idx, span)`:
`' '.join(sentences[max(0, idx-span) : min(len, idx+span+1)])`
(truncated `Nat` subtraction is exactly Python's `max(0, idx - span)`). -/
def search_window (sentences : List String) (idx span : Nat) : String :=
  joinSp ((sentences.drop (idx - span)).take
    (min sentences.length (idx + span + 1) - (idx - span)))

/-- Python `str.split()`. -/
def pySplit (s : String) : List String :=
  (runs (fun c => !isPySpace c) s.data).map (fun l => ⟨l⟩)

/-- `.strip(' .;:,')`. -/
def stripPunctOnly (s : String) : String :=
  ⟨stripPy (fun c => c = ' ' || c = '.' || c = ';' || c = ':' || c = ',') s.data⟩

/-- `.strip().strip(' .;:,')` applied to a captured group. -/
def stripPunct (s : String) : String := stripPunctOnly (stripStr s)

/-- A structural pattern: window text to optional captured group 1. -/
abbrev PatMatcher := String → Option String

/-- The inner pattern loop: each pattern in order, the captured phrase is
stripped, gated by `align ≥ 0.6 or len(acr) ≤ 3`, confidence
`min(0.98, base * (0.8 + 0.2 * align))`; a pattern that matches but fails
the gate falls through to the next pattern. -/
def tryPatterns (acr : String) : List (PatMatcher × ℚ) → String → Option DocHit
  | [], _ => none
  | (rx, base) :: rest, window =>
    match rx window with
    | some grp =>
      let phrase := stripPunct grp
      let align := initials_alignment_score acr phrase
      if (6 / 10 : ℚ) ≤ align ∨ acr.length ≤ 3 then
        some ⟨phrase, min (98 / 100) (base * (8 / 10 + 2 / 10 * align)), window⟩
      else tryPatterns acr rest window
    | none => tryPatterns acr rest window

/-- The fallback's tail text: `context[pos + len(acr):].strip()` where
`context = ' '.join([sentences[i]] + sentences[i+1:i+3])` and
`pos = s.find(acr)`. -/
def fbTail (acr : String) (sentences : List String) (i : Nat) (s : String) : String :=
  stripStr ⟨(joinSp (s :: (sentences.drop (i + 1)).take 2)).data.drop
    (findSubIdx acr.data s.data + acr.length)⟩

/-- The proximity fallback at sentence `i`: first 10 words of the tail,
accepted when their alignment score is at least `0.65`, confidence
`min(0.9, 0.66 + 0.25 * (align - 0.65))`. -/
def fallbackAt (acr : String) (sentences : List String) (i : Nat) (s : String) :
    Option DocHit :=
  let tailWords := joinSp ((pySplit (fbTail acr sentences i s)).take 10)
  if tailWords ≠ "" then
    let align := initials_alignment_score acr tailWords
    if (65 / 100 : ℚ) ≤ align then
      some ⟨stripPunctOnly tailWords,
        min (9 / 10) (66 / 100 + 25 / 100 * (align - 65 / 100)),
        stripStr (joinSp (s :: (sentences.drop (i + 1)).take 2))⟩
    else none
  else none

/-- The sentence loop of `find_definition_in_text`: at every sentence
containing the acronym literal, try the four patterns on the ±1 window,
then the fallback; on failure continue with the next sentence. -/
def fdAux (acr : String) (pats : List (PatMatcher × ℚ)) (all : List String) :
    Nat → List String → Option DocHit
  | _, [] => none
  | i, s :: rest =>
    if containsStr acr s then
      match tryPatterns acr pats (search_window all i 1) with
      | some h => some h
      | none =>
        match fallbackAt acr all i s with
        | some h => some h
        | none => fdAux acr pats all (i + 1) rest
    else fdAux acr pats all (i + 1) rest

def find_definition_in_text (acr : String) (pats : List (PatMatcher × ℚ))
    (sentences : List String) : Option DocHit :=
  fdAux acr pats sentences 0 sentences

/-- What one loop iteration at sentence index `i` yields: `none` when the
sentence does not exist or does not contain the acronym, otherwise the
pattern result, else the fallback result. -/
def hitAt (acr : String) (pats : List (PatMatcher × ℚ)) (all : List String)
    (i : Nat) : Option DocHit :=
  match all[i]? with
  | none => none
  | some s =>
    if containsStr acr s then
      match tryPatterns acr pats (search_window all i 1) with
      | some h => some h
      | none => fallbackAt acr all i s
    else none

theorem fdAux_spec (acr : String) (pats : List (PatMatcher × ℚ)) (all : List String) :
    ∀ (n i : Nat), all.length - i = n →
      (fdAux acr pats all i (all.drop i) = none ↔
        ∀ j, i ≤ j → hitAt acr pats all j = none) ∧
      (∀ j hh, i ≤ j → hitAt acr pats all j = some hh →
        (∀ k, i ≤ k → k < j → hitAt acr pats all k = none) →
        fdAux acr pats all i (all.drop i) = some hh) := by
  intro n
  induction n with
  | zero =>
    intro i hn
    have hle : all.length ≤ i := by omega
    have hd : all.drop i = [] := List.drop_eq_nil_of_le hle
    have hnone : ∀ j, i ≤ j → hitAt acr pats all j = none := by
      intro j hj
      unfold hitAt
      rw [List.getElem?_eq_none (by omega)]
    rw [hd]
    refine ⟨⟨fun _ => hnone, fun _ => rfl⟩, ?_⟩
    intro j hh hij hj _
    rw [hnone j hij] at hj
    cases hj
  | succ n ih =>
    intro i hn
    have hi : i < all.length := by omega
    have hd : all.drop i = all[i] :: all.drop (i + 1) := List.drop_eq_getElem_cons hi
    have hhit : hitAt acr pats all i =
        (if containsStr acr all[i] then
          match tryPatterns acr pats (search_window all i 1) with
          | some h => some h
          | none => fallbackAt acr all i all[i]
        else none) := by
      unfold hitAt
      rw [List.getElem?_eq_getElem hi]
    have ihs := ih (i + 1) (by omega)
    rw [hd]
    unfold fdAux
    by_cases hc : containsStr acr all[i] = true
    · rw [if_pos hc] at hhit ⊢
      cases hp : tryPatterns acr pats (search_window all i 1) with
      | some h =>
        rw [hp] at hhit
        constructor
        · constructor
          · intro he; cases he
          · intro hall
            have := hall i (le_refl i)
            rw [hhit] at this
            cases this
        · intro j hh hij hj hk
          rcases Nat.lt_or_ge i j with hlt | hge
          · have := hk i (le_refl i) hlt
            rw [hhit] at this
            cases this
          · have hije : i = j := by omega
            subst hije
            rw [hhit] at hj
            exact hj
      | none =>
        rw [hp] at hhit
        cases hf : fallbackAt acr all i all[i] with
        | some h =>
          rw [hf] at hhit
          constructor
          · constructor
            · intro he; cases he
            · intro hall
              have := hall i (le_refl i)
              rw [hhit] at this
              cases this
          · intro j hh hij hj hk
            rcases Nat.lt_or_ge i j with hlt | hge
            · have := hk i (le_refl i) hlt
              rw [hhit] at this
              cases this
            · have hije : i = j := by omega
              subst hije
              rw [hhit] at hj
              exact hj
        | none =>
          rw [hf] at hhit
          constructor
          · rw [ihs.1]
            constructor
            · intro hall j hj
              rcases Nat.lt_or_ge i j with hlt | hge
              · exact hall j (by omega)
              · have hije : i = j := by omega
                subst hije
                exact hhit
            · intro hall j hj
              exact hall j (by omega)
          · intro j hh hij hj hk
            have hij' : i + 1 ≤ j := by
              rcases Nat.lt_or_ge i j with hlt | hge
              · omega
              · exfalso
                have hije : i = j := by omega
                subst hije
                rw [hhit] at hj
                cases hj
            exact ihs.2 j hh hij' hj (fun k hk1 hk2 => hk k (by omega) hk2)
    · rw [if_neg hc] at hhit ⊢
      have ihs := ih (i + 1) (by omega)
      constructor
      · rw [ihs.1]
        constructor
        · intro hall j hj
          rcases Nat.lt_or_ge i j with hlt | hge
          · exact hall j (by omega)
          · have hije : i = j := by omega
            subst hije
            exact hhit
        · intro hall j hj
          exact hall j (by omega)
      · intro j hh hij hj hk
        have hij' : i + 1 ≤ j := by
          rcases Nat.lt_or_ge i j with hlt | hge
          · omega
          · exfalso
            have hije : i = j := by omega
            subst hije
            rw [hhit] at hj
            cases hj
        exact ihs.2 j hh hij' hj (fun k hk1 hk2 => hk k (by omega) hk2)

theorem tryPatterns_cons_none (acr : String) (rx : PatMatcher) (base : ℚ)
    (rest : List (PatMatcher × ℚ)) (w : String) (h : rx w = none) :
    tryPatterns acr ((rx, base) :: rest) w = tryPatterns acr rest w := by
  conv_lhs => rw [tryPatterns]
  rw [h]

theorem tryPatterns_cons_some (acr : String) (rx : PatMatcher) (base : ℚ)
    (rest : List (PatMatcher × ℚ)) (w grp : String) (h : rx w = some grp)
    (hgate : (6 / 10 : ℚ) ≤ initials_alignment_score acr (stripPunct grp) ∨
      acr.length ≤ 3) :
    tryPatterns acr ((rx, base) :: rest) w =
      some ⟨stripPunct grp,
        min (98 / 100) (base * (8 / 10 + 2 / 10 * initials_alignment_score acr (stripPunct grp))),
        w⟩ := by
  unfold tryPatterns
  rw [h]
  dsimp only
  rw [if_pos hgate]

theorem hitAt_pattern (acr : String) (pats : List (PatMatcher × ℚ))
    (all : List String) (i : Nat) (s : String) (hh : DocHit)
    (hget : all[i]? = some s) (hc : containsStr acr s = true)
    (hp : tryPatterns acr pats (search_window all i 1) = some hh) :
    hitAt acr pats all i = some hh := by
  unfold hitAt
  rw [hget]
  show (if containsStr acr s = true then
      match tryPatterns acr pats (search_window all i 1) with
      | some h => some h
      | none => fallbackAt acr all i s
    else none) = some hh
  rw [if_pos hc, hp]

/-- Claim C5 (amended) — the matcher scans every sentence containing the
acronym, in order, and returns the result of the first one at which a
pattern or the fallback passes; it returns `None` exactly when every
containing sentence fails (not merely the first one). -/
theorem claim_C5_matcher_first_success (acr : String) (pats : List (PatMatcher × ℚ))
    (sentences : List String) :
    (find_definition_in_text acr pats sentences = none ↔
      ∀ i, hitAt acr pats sentences i = none) ∧
    (∀ i hh, hitAt acr pats sentences i = some hh →
      (∀ j, j < i → hitAt acr pats sentences j = none) →
      find_definition_in_text acr pats sentences = some hh) := by
  have hs := fdAux_spec acr pats sentences sentences.length 0 (by omega)
  rw [List.drop_zero] at hs
  constructor
  · rw [show find_definition_in_text acr pats sentences =
      fdAux acr pats sentences 0 sentences from rfl, hs.1]
    exact ⟨fun h i => h i (Nat.zero_le i), fun h i _ => h i⟩
  · intro i hh hi hj
    exact hs.2 i hh (Nat.zero_le i) hi (fun k _ hk => hj k hk)

/-! ### Counterexample input for C5

`sentencesCE` puts the acronym `AB` in sentence 0 with no definition
evidence anywhere near it, and a parenthetical definition at sentence 3.
`patsCE` instantiates the four pattern parameters on this input: none of
the four regexes of the source matches the window around sentence 0
(no parenthesis, dash, colon or cue phrase is present there), and on the
window around sentence 3 only pattern 2 `ACR (Long form)` matches, with
captured group `Alpha Beta`. -/

def sentencesCE : List String :=
  ["AB was used here.", "Nothing relevant here at all.",
   "Filler sentence words only.", "AB (Alpha Beta) is defined."]

def patNoneCE : PatMatcher := fun _ => none

def pat2CE : PatMatcher :=
  fun w => if containsStr "AB (Alpha Beta)" w then some "Alpha Beta" else none

def patsCE : List (PatMatcher × ℚ) :=
  [(patNoneCE, 95 / 100), (pat2CE, 9 / 10), (patNoneCE, 85 / 100), (patNoneCE, 85 / 100)]

/-- The hit produced at sentence 3 of the counterexample input. -/
def ceHit (w : String) : DocHit :=
  ⟨stripPunct "Alpha Beta",
    min (98 / 100) ((9 / 10) * (8 / 10 + 2 / 10 *
      initials_alignment_score "AB" (stripPunct "Alpha Beta"))), w⟩

/-- At sentence 0 nothing passes: the patterns yield nothing and the
fallback tail starts with `was used here. ...`, whose initials share no
leading character with `AB`, so its alignment is at most `0.4 < 0.65`. -/
theorem hitAtCE0 : hitAt "AB" patsCE sentencesCE 0 = none := by
  have h0 : hitAt "AB" patsCE sentencesCE 0 =
      fallbackAt "AB" sentencesCE 0 "AB was used here." := rfl
  rw [h0]
  have htw : joinSp ((pySplit (fbTail "AB" sentencesCE 0 "AB was used here.")).take 10) =
      "was used here. Nothing relevant here at all. Filler sentence" := by decide
  unfold fallbackAt
  dsimp only
  rw [htw]
  have hgate : ¬((65 / 100 : ℚ) ≤ initials_alignment_score "AB"
      "was used here. Nothing relevant here at all. Filler sentence") := by
    intro hle
    have hb := score_noLead "AB"
      "was used here. Nothing relevant here at all. Filler sentence"
      (by decide) (by decide)
    linarith
  rw [if_pos (by decide :
      ("was used here. Nothing relevant here at all. Filler sentence" : String) ≠ ""),
    if_neg hgate]

/-- Claim C5 — counterexample to "first occurrence only": on
`sentencesCE`, sentence 0 is the first sentence containing `AB` and
nothing passes there (`hitAt … 0 = none`), so the claim says the matcher
returns `None`; the code goes on to sentence 3 and returns its
parenthetical hit. -/
theorem claim_C5_matcher_counterexample :
    containsStr "AB" "AB was used here." = true ∧
    hitAt "AB" patsCE sentencesCE 0 = none ∧
    find_definition_in_text "AB" patsCE sentencesCE ≠ none := by
  refine ⟨by decide, hitAtCE0, ?_⟩
  have h3 : hitAt "AB" patsCE sentencesCE 3 =
      some (ceHit (search_window sentencesCE 3 1)) := by
    apply hitAt_pattern _ _ _ _ "AB (Alpha Beta) is defined." _ rfl (by decide)
    unfold patsCE ceHit
    rw [tryPatterns_cons_none _ _ _ _ _ rfl]
    exact tryPatterns_cons_some "AB" pat2CE (9 / 10) _ _ "Alpha Beta" (by decide)
      (Or.inr (by decide))
  have hs := fdAux_spec "AB" patsCE sentencesCE sentencesCE.length 0 (by omega)
  rw [List.drop_zero] at hs
  have hfind := hs.2 3 (ceHit (search_window sentencesCE 3 1)) (by omega) h3 ?_
  · rw [show find_definition_in_text "AB" patsCE sentencesCE =
      fdAux "AB" patsCE sentencesCE 0 sentencesCE from rfl, hfind]
    simp
  · intro k _ hk
    interval_cases k
    · exact hitAtCE0
    · decide
    · decide

/-- Witness for the amended C5: a single sentence with a parenthetical
definition is matched at index 0. -/
theorem claim_C5_matcher_first_success_witness :
    find_definition_in_text "AB" patsCE ["AB (Alpha Beta) ok."] =
      some (ceHit (search_window ["AB (Alpha Beta) ok."] 0 1)) := by
  apply (claim_C5_matcher_first_success "AB" patsCE ["AB (Alpha Beta) ok."]).2 0
  · apply hitAt_pattern _ _ _ _ "AB (Alpha Beta) ok." _ rfl (by decide)
    unfold patsCE ceHit
    rw [tryPatterns_cons_none _ _ _ _ _ rfl]
    exact tryPatterns_cons_some "AB" pat2CE (9 / 10) _ _ "Alpha Beta" (by decide)
      (Or.inr (by decide))
  · intro j hj
    exact absurd hj (Nat.not_lt_zero j)

/-! ## The external knowledge aggregator (`web_candidates`, `web_lookup.py`)

Each knowledge source function (`wikipedia_title_search`, …) performs
network access; a deterministic run is modelled by a `Sources` record
holding the entry list each source returns for the fixed call arguments
(each source is always called with the same arguments inside one
`web_candidates` call, so one list per source suffices).  The cache is an
explicit association list; the result carries the trace of source
functions invoked, in call order.  `re.split` keeping boundary empties,
the dedup/rescoring `add` closure, the domain-aware ordering block, the
strict filter, the boost pass and the final stable descending sort are
concrete. -/

/-- An aggregator entry `(definition, domain, score)`. -/
abbrev WEntry := String × String × ℚ

def upperStr (s : String) : String := ⟨s.data.map Char.toUpper⟩

/-- `_is_disambiguation_text`. -/
def isDisambig (s : String) : Bool :=
  let t := lowerStr s
  containsStr "may refer to" t || containsStr "disambiguation" t || containsStr "list of" t

/-- `re.split(r"[^A-Za-z0-9]+", s)` keeping boundary empties
(`re_split_nonword`). -/
def pySplitNAAux : List Char → List Char → List (List Char)
  | [], cur => [cur.reverse]
  | c :: rest, cur =>
    if isPyAlnum c then pySplitNAAux rest (c :: cur)
    else cur.reverse :: pySplitNAAux (rest.dropWhile (fun x => !isPyAlnum x)) []
termination_by l _ => l.length
decreasing_by
  all_goals simp [List.length_cons]
  all_goals exact Nat.lt_succ_of_le (List.dropWhile_sublist _ |>.length_le)

def pySplitNA (s : String) : List String := (pySplitNAAux s.data []).map (fun l => ⟨l⟩)

/-- The fixed context-keyword list of `_score_candidate`. -/
def scoreKeys : List String :=
  ["computer", "data", "network", "law", "regulation", "europe", "united", "states",
   "protocol", "web", "page", "pdf", "memory", "processor", "graphics", "artificial",
   "intelligence", "health", "organization", "university", "union", "nation"]

/-- `_score_candidate(acr, text, context)`: initials alignment
(1.0 exact / 0.7 one-side-substring / 0), plus 0.04 per shared context
keyword, as `max(0.1, min(0.9, 0.5 + 0.3*align + bonus))`. -/
def score_candidate (acr text context : String) : ℚ :=
  let a := upperStr acr
  let t := stripStr text
  if t = "" then 0
  else
    let ini := initialsStr t
    let align : ℚ :=
      if ini = a then 1
      else if containsStr a ini || containsStr ini a then 7 / 10 else 0
    let ctx := takeStr 500 (joinSp (pySplitNA (lowerStr context)))
    let bonus := scoreKeys.foldl
      (fun b key => if containsStr key ctx && containsStr key (lowerStr t) then b + 4 / 100 else b) 0
    max (1 / 10) (min (9 / 10) (1 / 2 + 3 / 10 * align + bonus))

/-- The state of the `add` closure: accumulated entries and seen
`(definition.lower(), domain)` keys. -/
structure AddState where
  out : List WEntry
  seen : List (String × String)

/-- One item through `add`: drop empty/disambiguation text, dedup by
`(d.lower(), dom)`, re-score with `max(sc, _score_candidate(...))`. -/
def addOne (acr context : String) (st : AddState) (e : WEntry) : AddState :=
  let d := stripStr e.1
  if d = "" || isDisambig d then st
  else
    let k := (lowerStr d, e.2.1)
    if st.seen.contains k then st
    else ⟨st.out ++ [(d, e.2.1, max e.2.2 (score_candidate acr d context))], k :: st.seen⟩

def addAll (acr context : String) (st : AddState) (items : List WEntry) : AddState :=
  items.foldl (addOne acr context) st

/-- `_prefer_exact_initials`: +0.3 for exact initials, +0.15 for a
one-side-substring match, capped at 0.95. -/
def prefer_exact_initials (acr : String) (defs : List WEntry) : List WEntry :=
  defs.map (fun e =>
    let ini := initialsStr e.1
    let bonus : ℚ :=
      if ini = upperStr acr then 3 / 10
      else if containsStr (upperStr acr) ini || containsStr ini (upperStr acr) then 15 / 100
      else 0
    (e.1, e.2.1, min (95 / 100) (e.2.2 + bonus)))

/-- Stable insert for a descending sort by score: `e` goes before the
first strictly smaller element, after earlier equal-scored ones. -/
def insertDesc (e : WEntry) : List WEntry → List WEntry
  | [] => [e]
  | x :: xs => if x.2.2 < e.2.2 then e :: x :: xs else x :: insertDesc e xs

/-- `sorted(out, key=lambda x: x[2], reverse=True)`: a stable descending
sort (stable sorts with the same key agree on their output, so insertion
sort matches Python's sort here). -/
def pySortDesc (l : List WEntry) : List WEntry :=
  l.foldl (fun acc e => insertDesc e acc) []

/-- The deterministic responses of the knowledge sources for one
(acronym, keyword, lang) argument tuple. -/
structure Sources where
  wikipedia_title_search : List WEntry
  wikipedia_rest_summary : List WEntry
  wikipedia_opensearch : List WEntry
  wiktionary_search : List WEntry
  wikidata_search : List WEntry
  dbpedia_search : List WEntry
  ietf_glossary : List WEntry
  acromine_lookup : List WEntry
  wiktionary_summary : List WEntry
  wikipedia_search_titles : List WEntry
  freedict_lookup : List WEntry
  wordnik_lookup : List WEntry
  merriam_webster_lookup : List WEntry
  wordsapi_lookup : List WEntry
  definitions_net_lookup : List WEntry

abbrev WCache := List (String × List WEntry)

def cacheGet (c : WCache) (k : String) : Option (List WEntry) :=
  (c.find? (fun pr => pr.1 == k)).map (fun pr => pr.2)

/-- `INSERT OR REPLACE` upsert; reads see the newest value for a key. -/
def cacheSet (c : WCache) (k : String) (v : List WEntry) : WCache := (k, v) :: c

/-- `f"{acr}|{(keyword or '').strip().lower()}|{lang}|{domain}|{strict_initials}"`
(Python renders `None` and booleans into the key text). -/
def mkKey (acr : String) (keyword : Option String) (lang : String)
    (domain : Option String) (strict : Bool) : String :=
  acr ++ "|" ++ lowerStr (stripStr (keyword.getD "")) ++ "|" ++ lang ++ "|" ++
    (match domain with | none => "None" | some d => d) ++ "|" ++
    (if strict then "True" else "False")

/-- `(domain or '').lower() in ('bio','medical','medicine','biomed')`. -/
def isBioDomain (domain : Option String) : Bool :=
  let d := lowerStr (domain.getD "")
  d = "bio" || d = "medical" || d = "medicine" || d = "biomed"

/-- The call sequence of the miss path, in source order; the boolean marks
a guarded call (`if len(out) < limit: add(...)`) as opposed to an
unconditional `add(...)`. -/
def sourceSeq (env : Sources) (domain : Option String) :
    List (String × List WEntry × Bool) :=
  [("wikipedia_title_search", env.wikipedia_title_search, false),
   ("wikipedia_rest_summary", env.wikipedia_rest_summary, true),
   ("wikipedia_opensearch", env.wikipedia_opensearch, true),
   ("wiktionary_search", env.wiktionary_search, true),
   ("wikidata_search", env.wikidata_search, true),
   ("dbpedia_search", env.dbpedia_search, true),
   ("ietf_glossary", env.ietf_glossary, true)] ++
  (if isBioDomain domain then
    [("acromine_lookup", env.acromine_lookup, false),
     ("wiktionary_summary", env.wiktionary_summary, true),
     ("wikipedia_search_titles", env.wikipedia_search_titles, true)]
  else
    [("wikipedia_search_titles", env.wikipedia_search_titles, false),
     ("wiktionary_summary", env.wiktionary_summary, true),
     ("acromine_lookup", env.acromine_lookup, true)]) ++
  [("wikipedia_title_search", env.wikipedia_title_search, true),
   ("wikipedia_rest_summary", env.wikipedia_rest_summary, true),
   ("wikipedia_opensearch", env.wikipedia_opensearch, true),
   ("wiktionary_search", env.wiktionary_search, true),
   ("wikidata_search", env.wikidata_search, true),
   ("dbpedia_search", env.dbpedia_search, true),
   ("ietf_glossary", env.ietf_glossary, true),
   ("freedict_lookup", env.freedict_lookup, true),
   ("wordnik_lookup", env.wordnik_lookup, true),
   ("merriam_webster_lookup", env.merriam_webster_lookup, true),
   ("wordsapi_lookup", env.wordsapi_lookup, true),
   ("definitions_net_lookup", env.definitions_net_lookup, true)]

structure RunState where
  st : AddState
  trace : List String

/-- One call site: a guarded call runs only while `len(out) < limit`. -/
def addStep (acr context : String) (limit : Nat) (s : RunState)
    (src : String × List WEntry × Bool) : RunState :=
  if src.2.2 && !(decide (s.st.out.length < limit)) then s
  else ⟨addAll acr context s.st src.2.1, s.trace ++ [src.1]⟩

def runSources (env : Sources) (acr context : String) (limit : Nat)
    (domain : Option String) : RunState :=
  (sourceSeq env domain).foldl (addStep acr context limit) ⟨⟨[], []⟩, []⟩

/-- The miss-path result: boost pass, optional strict filter, stable
descending sort, truncation to `limit`. -/
def missResult (env : Sources) (acr context : String) (limit : Nat)
    (domain : Option String) (strict : Bool) : List WEntry :=
  let out1 := prefer_exact_initials acr (runSources env acr context limit domain).st.out
  let out2 := if strict then out1.filter (fun e => initialsStr e.1 == upperStr acr) else out1
  (pySortDesc out2).take limit

structure WCResult where
  result : List WEntry
  cache : WCache
  trace : List String

/-- `web_candidates(acr, context_text, limit, keyword, lang, domain,
strict_initials)` over a cache value: the result list, the updated cache
and the trace of sources queried.  An empty cached list is falsy in
`if cached:` and is treated as a miss. -/
def web_candidates (env : Sources) (acr context : String) (limit : Nat)
    (keyword : Option String) (lang : String) (domain : Option String)
    (strict : Bool) (cache : WCache) : WCResult :=
  let key := mkKey acr keyword lang domain strict
  let cached := (cacheGet cache key).getD []
  if cached.isEmpty then
    ⟨missResult env acr context limit domain strict,
     cacheSet cache key (missResult env acr context limit domain strict),
     (runSources env acr context limit domain).trace⟩
  else ⟨cached.take limit, cache, []⟩

theorem addAll_length_mono (acr context : String) (items : List WEntry) :
    ∀ (st : AddState), st.out.length ≤ (addAll acr context st items).out.length := by
  induction items with
  | nil => intro st; exact le_refl _
  | cons e rest ih =>
    intro st
    refine le_trans ?_ (ih (addOne acr context st e))
    unfold addOne
    dsimp only
    split
    · exact le_refl _
    · split
      · exact le_refl _
      · simp

theorem addStep_skip (acr context : String) (limit : Nat) (s : RunState)
    (src : String × List WEntry × Bool) (hg : src.2.2 = true)
    (hlen : limit ≤ s.st.out.length) : addStep acr context limit s src = s := by
  unfold addStep
  rw [if_pos]
  rw [hg]
  simp only [Bool.true_and, Bool.not_eq_true', decide_eq_false_iff_not]
  omega

theorem foldl_skip (acr context : String) (limit : Nat)
    (seq : List (String × List WEntry × Bool))
    (hall : ∀ src ∈ seq, src.2.2 = true) :
    ∀ (s : RunState), limit ≤ s.st.out.length →
      seq.foldl (addStep acr context limit) s = s := by
  induction seq with
  | nil => intro s _; rfl
  | cons src rest ih =>
    intro s hlen
    rw [List.foldl_cons,
      addStep_skip _ _ _ _ _ (hall src (List.mem_cons_self _ _)) hlen]
    exact ih (fun x hx => hall x (List.mem_cons_of_mem _ hx)) s hlen

theorem addStep_run (acr context : String) (limit : Nat) (s : RunState)
    (name : String) (items : List WEntry) :
    addStep acr context limit s (name, items, false) =
      ⟨addAll acr context s.st items, s.trace ++ [name]⟩ := by
  unfold addStep
  simp

theorem foldl_len_mono (acr context : String) (limit : Nat)
    (seq : List (String × List WEntry × Bool)) :
    ∀ (s : RunState),
      s.st.out.length ≤ (seq.foldl (addStep acr context limit) s).st.out.length := by
  induction seq with
  | nil => intro s; exact le_refl _
  | cons src rest ih =>
    intro s
    refine le_trans ?_ (ih (addStep acr context limit s src))
    unfold addStep
    split
    · exact le_refl _
    · exact addAll_length_mono _ _ _ _

/-- Once `limit` unique candidates exist after the always-attempted first
source, only the unconditional head of the domain-ordering block is still
queried. -/
theorem runSources_trace_of_limit (env : Sources) (acr context : String) (limit : Nat)
    (domain : Option String)
    (hfirst : limit ≤ (addAll acr context ⟨[], []⟩ env.wikipedia_title_search).out.length) :
    (runSources env acr context limit domain).trace =
      ["wikipedia_title_search",
       if isBioDomain domain then "acromine_lookup" else "wikipedia_search_titles"] := by
  have hA : List.foldl (addStep acr context limit) ⟨⟨[], []⟩, []⟩
      [("wikipedia_title_search", env.wikipedia_title_search, false),
       ("wikipedia_rest_summary", env.wikipedia_rest_summary, true),
       ("wikipedia_opensearch", env.wikipedia_opensearch, true),
       ("wiktionary_search", env.wiktionary_search, true),
       ("wikidata_search", env.wikidata_search, true),
       ("dbpedia_search", env.dbpedia_search, true),
       ("ietf_glossary", env.ietf_glossary, true)] =
      ⟨addAll acr context ⟨[], []⟩ env.wikipedia_title_search, ["wikipedia_title_search"]⟩ := by
    rw [List.foldl_cons, addStep_run]
    exact foldl_skip _ _ _ _ (by intro src hsrc; fin_cases hsrc <;> rfl) _ hfirst
  unfold runSources sourceSeq
  rw [List.foldl_append, List.foldl_append, hA]
  rw [foldl_skip _ _ _ _ (by intro src hsrc; fin_cases hsrc <;> rfl) _
    (le_trans hfirst (foldl_len_mono _ _ _ _
      ⟨addAll acr context ⟨[], []⟩ env.wikipedia_title_search, ["wikipedia_title_search"]⟩))]
  by_cases hbio : isBioDomain domain = true
  · rw [if_pos hbio, if_pos hbio]
    rw [List.foldl_cons, addStep_run]
    rw [foldl_skip _ _ _ _ (by intro src hsrc; fin_cases hsrc <;> rfl) _
      (le_trans hfirst (addAll_length_mono _ _ _ _))]
    rfl
  · have hbio' : ¬(isBioDomain domain = true) := hbio
    rw [if_neg hbio', if_neg hbio']
    rw [List.foldl_cons, addStep_run]
    rw [foldl_skip _ _ _ _ (by intro src hsrc; fin_cases hsrc <;> rfl) _
      (le_trans hfirst (addAll_length_mono _ _ _ _))]
    rfl

/-- Evaluation of `web_candidates` on a falsy cache read (`None` or an
empty list). -/
theorem wc_eq_miss (env : Sources) (acr context : String) (limit : Nat)
    (keyword : Option String) (lang : String) (domain : Option String)
    (strict : Bool) (cache : WCache)
    (h : ((cacheGet cache (mkKey acr keyword lang domain strict)).getD
      ([] : List WEntry)).isEmpty = true) :
    web_candidates env acr context limit keyword lang domain strict cache =
      ⟨missResult env acr context limit domain strict,
       cacheSet cache (mkKey acr keyword lang domain strict)
         (missResult env acr context limit domain strict),
       (runSources env acr context limit domain).trace⟩ := by
  unfold web_candidates
  dsimp only
  rw [if_pos h]

/-- Evaluation of `web_candidates` on a cache hit. -/
theorem wc_eq_hit (env : Sources) (acr context : String) (limit : Nat)
    (keyword : Option String) (lang : String) (domain : Option String)
    (strict : Bool) (cache : WCache)
    (h : ((cacheGet cache (mkKey acr keyword lang domain strict)).getD
      ([] : List WEntry)).isEmpty = false) :
    web_candidates env acr context limit keyword lang domain strict cache =
      ⟨((cacheGet cache (mkKey acr keyword lang domain strict)).getD
        ([] : List WEntry)).take limit, cache, []⟩ := by
  unfold web_candidates
  dsimp only
  rw [if_neg (by rw [h]; exact Bool.false_ne_true)]

/-- The run state after the first `n` call sites of the miss path. -/
def prefixRun (env : Sources) (acr context : String) (limit : Nat)
    (domain : Option String) (n : Nat) : RunState :=
  ((sourceSeq env domain).take n).foldl (addStep acr context limit) ⟨⟨[], []⟩, []⟩

/-- Whether call site `i` fires: an unconditional `add(...)` always does;
a guarded `if len(out) < limit: add(...)` fires iff the preceding call
sites accumulated fewer than `limit` unique candidates. -/
def queryFires (env : Sources) (acr context : String) (limit : Nat)
    (domain : Option String) (i : Nat) : Bool :=
  !((sourceSeq env domain).getD i ("", [], true)).2.2 ||
    decide ((prefixRun env acr context limit domain i).st.out.length < limit)

/-- `addStep` rephrased by whether the call site fires. -/
theorem addStep_eq (acr context : String) (limit : Nat) (s : RunState)
    (src : String × List WEntry × Bool) :
    addStep acr context limit s src =
      if (!src.2.2 || decide (s.st.out.length < limit)) = true
      then ⟨addAll acr context s.st src.2.1, s.trace ++ [src.1]⟩
      else s := by
  unfold addStep
  cases hA : src.2.2 <;> cases hD : decide (s.st.out.length < limit) <;> simp [hA, hD]

theorem head?_append_some {α : Type} {l l' : List α} {a : α}
    (h : l.head? = some a) : (l ++ l').head? = some a := by
  cases l with
  | nil => cases h
  | cons b t =>
    simp at h
    simp [h]

/-- Claim C6 (amended) — query order and per-source guards on a falsy
cache read: (1) at every call site `i` of the fixed, domain-aware source
sequence, the trace grows by exactly that source's name iff the site
fires — always for the two unconditional sites (the first source and the
head of the domain-ordering block), and for a guarded site iff fewer than
`limit` unique candidates were accumulated by the preceding sites; (2)
the observable trace is the state after the last call site, so it lists
exactly the firing sources in sequence order; (3) the first source is
always attempted; (4) in particular, once the first source alone
accumulates `limit` unique candidates, exactly the two unconditional
sources are queried. -/
theorem claim_C6_source_order_and_guards (env : Sources) (acr context : String)
    (limit : Nat) (keyword : Option String) (lang : String) (domain : Option String)
    (strict : Bool) (cache : WCache)
    (hmiss : cacheGet cache (mkKey acr keyword lang domain strict) = none ∨
      cacheGet cache (mkKey acr keyword lang domain strict) = some []) :
    (∀ i, i < (sourceSeq env domain).length →
      (prefixRun env acr context limit domain (i + 1)).trace =
        (prefixRun env acr context limit domain i).trace ++
          (if queryFires env acr context limit domain i = true
           then [((sourceSeq env domain).getD i ("", [], true)).1] else [])) ∧
    (web_candidates env acr context limit keyword lang domain strict cache).trace =
      (prefixRun env acr context limit domain (sourceSeq env domain).length).trace ∧
    (web_candidates env acr context limit keyword lang domain strict cache).trace.head? =
      some "wikipedia_title_search" ∧
    (limit ≤ (addAll acr context ⟨[], []⟩ env.wikipedia_title_search).out.length →
      (web_candidates env acr context limit keyword lang domain strict cache).trace =
        ["wikipedia_title_search",
         if isBioDomain domain then "acromine_lookup" else "wikipedia_search_titles"]) := by
  have hfalsy : ((cacheGet cache (mkKey acr keyword lang domain strict)).getD
      ([] : List WEntry)).isEmpty = true := by
    rcases hmiss with h | h <;> rw [h] <;> rfl
  have hwc : (web_candidates env acr context limit keyword lang domain strict cache).trace =
      (runSources env acr context limit domain).trace := by
    rw [wc_eq_miss env acr context limit keyword lang domain strict cache hfalsy]
  have hsite : ∀ i, i < (sourceSeq env domain).length →
      (prefixRun env acr context limit domain (i + 1)).trace =
        (prefixRun env acr context limit domain i).trace ++
          (if queryFires env acr context limit domain i = true
           then [((sourceSeq env domain).getD i ("", [], true)).1] else []) := by
    intro i hi
    have hgd : (sourceSeq env domain).getD i ("", [], true) = (sourceSeq env domain)[i] := by
      rw [List.getD_eq_getElem?_getD, List.getElem?_eq_getElem hi]
      rfl
    unfold queryFires
    unfold prefixRun
    rw [List.take_succ, List.foldl_append, List.getElem?_eq_getElem hi]
    rw [show ((some ((sourceSeq env domain)[i])).toList) = [(sourceSeq env domain)[i]]
      from rfl]
    rw [List.foldl_cons, List.foldl_nil, addStep_eq, hgd]
    by_cases hQ : (!((sourceSeq env domain)[i].2.2) ||
        decide ((((sourceSeq env domain).take i).foldl (addStep acr context limit)
          ⟨⟨[], []⟩, []⟩).st.out.length < limit)) = true
    · rw [if_pos hQ, if_pos hQ]
    · rw [if_neg hQ, if_neg hQ]
      simp
  have hb : (web_candidates env acr context limit keyword lang domain strict cache).trace =
      (prefixRun env acr context limit domain (sourceSeq env domain).length).trace := by
    rw [hwc]
    unfold runSources prefixRun
    rw [List.take_length]
  have hlen : (sourceSeq env domain).length = 22 := by
    unfold sourceSeq
    by_cases hb2 : isBioDomain domain = true
    · simp [hb2]
    · simp [hb2]
  have hhead : ∀ n, 1 ≤ n → n ≤ (sourceSeq env domain).length →
      ((prefixRun env acr context limit domain n).trace).head? =
        some "wikipedia_title_search" := by
    intro n
    induction n with
    | zero => intro h1 _; exact absurd h1 (by omega)
    | succ n ih =>
      intro _ h2
      by_cases hn : n = 0
      · subst hn
        have h1t : (prefixRun env acr context limit domain 1).trace =
            ["wikipedia_title_search"] := rfl
        rw [h1t]
        rfl
      · rw [hsite n (by omega)]
        exact head?_append_some (ih (by omega) (by omega))
  refine ⟨hsite, hb, ?_, ?_⟩
  · rw [hb]
    exact hhead _ (by rw [hlen]; norm_num) (le_refl _)
  · intro hfirst
    rw [hwc]
    exact runSources_trace_of_limit env acr context limit domain hfirst

/-- The all-empty deterministic source environment. -/
def envEmpty : Sources :=
  ⟨[], [], [], [], [], [], [], [], [], [], [], [], [], [], []⟩

/-- A deterministic environment whose first source already returns one
usable candidate. -/
def envOne : Sources :=
  ⟨[("Alpha Beta", "x", 1)], [], [], [], [], [], [], [], [], [], [], [], [], [], []⟩

/-- Claim C6 — counterexample to the short-circuit as stated: with
`limit = 1` the first source already accumulates one unique candidate,
yet a second source (`wikipedia_search_titles`, the unconditional head of
the domain-ordering block) is still queried. -/
theorem claim_C6_source_order_counterexample :
    1 ≤ (addAll "AB" "" ⟨[], []⟩ [("Alpha Beta", "x", 1)]).out.length ∧
    (web_candidates envOne "AB" "" 1 none "en" none false []).trace =
      ["wikipedia_title_search", "wikipedia_search_titles"] := by
  constructor
  · decide
  · have htr := runSources_trace_of_limit envOne "AB" "" 1 none (by decide)
    rw [show (if isBioDomain none then "acromine_lookup" else "wikipedia_search_titles") =
      "wikipedia_search_titles" from rfl] at htr
    rw [wc_eq_miss envOne "AB" "" 1 none "en" none false [] (by rfl)]
    exact htr

/-- Witness for the amended C6 at `envOne`, `limit = 1`, empty cache: the
saturation conjunct yields the two-source trace. -/
theorem claim_C6_source_order_and_guards_witness :
    (web_candidates envOne "AB" "" 1 none "en" none false []).trace =
      ["wikipedia_title_search",
       if isBioDomain none then "acromine_lookup" else "wikipedia_search_titles"] :=
  (claim_C6_source_order_and_guards envOne "AB" "" 1 none "en" none false []
    (Or.inl rfl)).2.2.2 (by decide)

/-- Claim C7 (amended) — cache round trip: two calls with identical
arguments and deterministic sources return identical ranked lists, and the
second call performs zero outbound queries whenever the first call's
result list is non-empty (an empty list is cached but read back as falsy,
so it is treated as a miss and the sources are queried again). -/
theorem claim_C7_cache_round_trip (env : Sources) (acr context : String) (limit : Nat)
    (keyword : Option String) (lang : String) (domain : Option String) (strict : Bool)
    (cache : WCache) :
    (web_candidates env acr context limit keyword lang domain strict
        (web_candidates env acr context limit keyword lang domain strict cache).cache).result =
      (web_candidates env acr context limit keyword lang domain strict cache).result ∧
    ((web_candidates env acr context limit keyword lang domain strict cache).result ≠ [] →
      (web_candidates env acr context limit keyword lang domain strict
        (web_candidates env acr context limit keyword lang domain strict cache).cache).trace =
        []) := by
  have hget2 : cacheGet (cacheSet cache (mkKey acr keyword lang domain strict)
      (missResult env acr context limit domain strict))
      (mkKey acr keyword lang domain strict) =
      some (missResult env acr context limit domain strict) := by
    simp [cacheGet, cacheSet]
  have htake : (missResult env acr context limit domain strict).take limit =
      missResult env acr context limit domain strict := by
    unfold missResult
    dsimp only
    rw [List.take_take, Nat.min_self]
  by_cases hc1 : ((cacheGet cache (mkKey acr keyword lang domain strict)).getD
      ([] : List WEntry)).isEmpty = true
  · rw [wc_eq_miss env acr context limit keyword lang domain strict cache hc1]
    by_cases hm : (missResult env acr context limit domain strict).isEmpty = true
    · rw [wc_eq_miss env acr context limit keyword lang domain strict _
        (by rw [hget2]; exact hm)]
      exact ⟨rfl, fun hne => absurd (List.isEmpty_iff.mp hm) hne⟩
    · rw [wc_eq_hit env acr context limit keyword lang domain strict _
        (by rw [hget2]; exact Bool.not_eq_true _ |>.mp hm)]
      constructor
      · show ((cacheGet _ (mkKey acr keyword lang domain strict)).getD
          ([] : List WEntry)).take limit = _
        rw [hget2]
        exact htake
      · intro _
        rfl
  · have hc1' := Bool.not_eq_true _ |>.mp hc1
    rw [wc_eq_hit env acr context limit keyword lang domain strict cache hc1']
    rw [wc_eq_hit env acr context limit keyword lang domain strict cache hc1']
    exact ⟨rfl, fun _ => rfl⟩

/-- Claim C7 — counterexample to "zero outbound queries on the second
call": when every source contributes nothing, the first call caches `[]`,
the second call reads it back as falsy and queries all sources again
(identical output, but a non-empty outbound trace). -/
theorem claim_C7_cache_round_trip_counterexample :
    (web_candidates envEmpty "AB" "" 5 none "en" none false
        (web_candidates envEmpty "AB" "" 5 none "en" none false []).cache).result =
      (web_candidates envEmpty "AB" "" 5 none "en" none false []).result ∧
    (web_candidates envEmpty "AB" "" 5 none "en" none false
        (web_candidates envEmpty "AB" "" 5 none "en" none false []).cache).trace ≠ [] := by
  decide

/-- A cache that already holds one candidate under the key the call
computes. -/
def cacheW : WCache := [(mkKey "AB" none "en" none false, [("Alpha Beta", "x", 1)])]

/-- Witness for the amended C7: with a non-empty first result the second
call is answered from the cache with no outbound queries. -/
theorem claim_C7_cache_round_trip_witness :
    (web_candidates envEmpty "AB" "" 5 none "en" none false
        (web_candidates envEmpty "AB" "" 5 none "en" none false cacheW).cache).trace = [] :=
  (claim_C7_cache_round_trip envEmpty "AB" "" 5 none "en" none false cacheW).2 (by decide)

end AcronymBuster
